import Mathlib

/-!
Verification of the media-size resolution and label-layout engine of the
label_web repository (`implementation_cups.py`, `brother_ql_web.py`,
`constants.py`).

Strings are modelled as `List Char`; Python floats are modelled as `ℚ`;
Python `int()` truncation on non-negative values is `Rat.floor`; Python
`round()` is round-half-to-even (`pyRound`).
-/

/-- ASCII digit test, the `\d` class of the patterns in `constants.py` and
`implementation_cups.py` (identifiers are ASCII). -/
def isDig (c : Char) : Bool := decide (48 ≤ c.toNat ∧ c.toNat ≤ 57)

/-- Python `\s` whitespace class restricted to ASCII. -/
def isSpc (c : Char) : Bool := decide (c.toNat = 32 ∨ (9 ≤ c.toNat ∧ c.toNat ≤ 13))

/-- Scan `\d+(?:\.\d+)?` at the head of the input, returning the matched
text and the rest.  Greedy matching; backtracking inside this piece can
never rescue a later failure (the character after a shorter match is a
digit or a dot, which none of the following pattern pieces accept), so
maximal munch is equivalent to Python `re` behaviour here. -/
def scanNum (cs : List Char) : Option (List Char × List Char) :=
  let d1 := cs.takeWhile isDig
  let r1 := cs.dropWhile isDig
  if d1.isEmpty then none
  else
    match r1 with
    | [] => some (d1, [])
    | c :: r2 =>
      if c = '.' then
        let d2 := r2.takeWhile isDig
        if d2.isEmpty then some (d1, r1)
        else some (d1 ++ '.' :: d2, r2.dropWhile isDig)
      else some (d1, r1)

/-- Whitespace skip, the pattern piece written with a star after the s class. -/
def skipSpc (cs : List Char) : List Char := cs.dropWhile isSpc

/-- The unit alternatives of `PARSEABLE_SIZE_PATTERN` in `constants.py`:
`(in|mm|cm)?`.  Note: `pt` is not an alternative of the source pattern. -/
inductive SUnit
  | uin
  | umm
  | ucm
deriving DecidableEq

/-- The characters emitted for a captured unit (the code lowercases the
captured text before emitting it). -/
def sunitChars : SUnit → List Char
  | .uin => ['i', 'n']
  | .umm => ['m', 'm']
  | .ucm => ['c', 'm']

/-- Scan the optional `(in|mm|cm)?` suffix, case-insensitively
(`re.IGNORECASE` is passed at both call sites of the pattern). -/
def scanUnit : List Char → Option SUnit
  | c1 :: c2 :: _ =>
    if c1.toLower = 'i' ∧ c2.toLower = 'n' then some .uin
    else if c1.toLower = 'm' ∧ c2.toLower = 'm' then some .umm
    else if c1.toLower = 'c' ∧ c2.toLower = 'm' then some .ucm
    else none
  | _ => none

/-- Match `PARSEABLE_SIZE_PATTERN` anchored at the current position:
`(\d+(?:\.\d+)?)\s*x\s*(\d+(?:\.\d+)?)\s*(in|mm|cm)?` with `re.IGNORECASE`.
Returns the two captured numbers and the optional captured unit. -/
def matchAt (cs : List Char) : Option (List Char × List Char × Option SUnit) :=
  match scanNum cs with
  | none => none
  | some (w, r1) =>
    match skipSpc r1 with
    | [] => none
    | x :: r2 =>
      if x.toLower = 'x' then
        match scanNum (skipSpc r2) with
        | none => none
        | some (h, r3) => some (w, h, scanUnit (skipSpc r3))
      else none

/-- Python `re.search(PARSEABLE_SIZE_PATTERN, s, re.IGNORECASE)`: try the pattern
at every position, leftmost match wins. -/
def searchSize : List Char → Option (List Char × List Char × Option SUnit)
  | [] => none
  | c :: rest =>
    match matchAt (c :: rest) with
    | some g => some g
    | none => searchSize rest

/-- Unit alternatives of the second regex, used by
`_media_name_to_dimensions` (line 241): `(in|mm)` — mandatory, lowercase
only (that call site passes no `re.IGNORECASE`). -/
inductive MUnit
  | uin
  | umm
deriving DecidableEq

/-- Scan the mandatory `(in|mm)` group of the media-name regex. -/
def scanUnitMedia : List Char → Option MUnit
  | 'i' :: 'n' :: _ => some .uin
  | 'm' :: 'm' :: _ => some .umm
  | _ => none

/-- Match `(\d+(?:\.\d+)?)[xX](\d+(?:\.\d+)?)(in|mm)` anchored at the
current position (the regex of `_media_name_to_dimensions`). -/
def matchAtMedia (cs : List Char) : Option (List Char × List Char × MUnit) :=
  match scanNum cs with
  | none => none
  | some (w, r1) =>
    match r1 with
    | [] => none
    | x :: r2 =>
      if x = 'x' ∨ x = 'X' then
        match scanNum r2 with
        | none => none
        | some (h, r3) =>
          match scanUnitMedia r3 with
          | some u => some (w, h, u)
          | none => none
      else none

/-- Python `re.search` with the media-name regex. -/
def searchMedia : List Char → Option (List Char × List Char × MUnit)
  | [] => none
  | c :: rest =>
    match matchAtMedia (c :: rest) with
    | some g => some g
    | none => searchMedia rest

/-- Decimal digits to a natural number. -/
def digitsToNat (cs : List Char) : ℕ := cs.foldl (fun a c => a * 10 + (c.toNat - 48)) 0

/-- Python `float()` of a captured numeral (`\d+` or `\d+.\d+`), as a
rational. -/
def numListQ (cs : List Char) : ℚ :=
  let ip := cs.takeWhile isDig
  let rest := cs.dropWhile isDig
  match rest with
  | '.' :: fp => (digitsToNat ip : ℚ) + (digitsToNat fp : ℚ) / (10 : ℚ) ^ fp.length
  | _ => (digitsToNat ip : ℚ)

/-- Millimeters per inch (the source constant 25.4). -/
def mmPerInch : ℚ := 127 / 5

/-- Centimeters per inch (the source constant 2.54). -/
def cmPerInch : ℚ := 127 / 50

/-- Physical units handled by the unit-dispatch of
`_media_name_to_dimensions` (lines 248-265); absence of a unit means
points by the CUPS convention stated in the source comments. -/
inductive PhysUnit
  | pt
  | inch
  | mm
  | cm
deriving DecidableEq

/-- Pixel count for a physical length, following the per-unit branches of
`_media_name_to_dimensions`: the length is converted to inches, multiplied
by the DPI, and truncated with Python `int()` (floor on non-negatives). -/
def toPixels (v : ℚ) (u : PhysUnit) (dpi : ℚ) : ℤ :=
  match u with
  | .pt => ((v / 72) * dpi).floor
  | .inch => (v * dpi).floor
  | .mm => ((v / mmPerInch) * dpi).floor
  | .cm => ((v / cmPerInch) * dpi).floor

/-- The physical length in inches described by `v` in unit `u`. -/
def inchesOf (v : ℚ) : PhysUnit → ℚ
  | .pt => v / 72
  | .inch => v
  | .mm => v / mmPerInch
  | .cm => v / cmPerInch

/-- The name-parsing fallback of `_media_name_to_dimensions` (lines
239-267): search the media-name regex and convert the captured physical
size to pixels.  The captured unit is always `in` or `mm`, so only those
two dispatch branches of the source are reachable here. -/
def mediaToDims (dpi : ℚ) (name : List Char) : Option (ℤ × ℤ) :=
  match searchMedia name with
  | none => none
  | some (w, h, u) =>
    match u with
    | .uin => some (toPixels (numListQ w) .inch dpi, toPixels (numListQ h) .inch dpi)
    | .umm => some (toPixels (numListQ w) .mm dpi, toPixels (numListQ h) .mm dpi)

/-- Python dict lookup on an association list keyed by identifier. -/
def lookupL {α : Type} (k : List Char) : List (List Char × α) → Option α
  | [] => none
  | (k2, v) :: rest => if k = k2 then some v else lookupL k rest

/-- Lookup in the optional `LABEL_PRINTABLE_AREA` section (`none` models a
missing `PRINTER`/`LABEL_PRINTABLE_AREA` section; the source treats a
missing section and a missing key identically). -/
def areaFind (area : Option (List (List Char × ℤ × ℤ))) (k : List Char) : Option (ℤ × ℤ) :=
  match area with
  | none => none
  | some l => lookupL k l

/-- Model of `get_label_dimensions` (lines 363-405) restricted to its pure cascade:
name parsing, then configuration lookup, then the fixed `(300, 200)`
fallback.  A parsed dimension pair is returned as-is (in Python every
tuple, including `(0, 0)`, is truthy at the `if dims:` test). -/
def get_label_dimensions (dpi : ℚ) (area : Option (List (List Char × ℤ × ℤ)))
    (label_size : List Char) : ℤ × ℤ :=
  match mediaToDims dpi label_size with
  | some d => d
  | none =>
    match areaFind area label_size with
    | some d => d
    | none => (300, 200)

/-- The canonical marker `Custom.` prepended by the converter. -/
def customDot : List Char := ['C', 'u', 's', 't', 'o', 'm', '.']

/-- Decimal rendering of a natural number, as in a Python f-string. -/
def natToChars (n : ℕ) : List Char := Nat.toDigits 10 n

/-- Decimal rendering of an integer. -/
def intToChars (z : ℤ) : List Char :=
  if z < 0 then '-' :: natToChars z.natAbs else natToChars z.natAbs

/-- Python 3 `round()` to an integer: round half to even. -/
def pyRound (q : ℚ) : ℤ :=
  let f := q.floor
  let r := q - f
  if r < 1 / 2 then f
  else if 1 / 2 < r then f + 1
  else if f % 2 = 0 then f else f + 1

/-- The `Custom.<round(mm)>x<round(mm)>mm` form emitted for a configured
pixel size (lines 183-197): pixels are converted to millimeters at the
given DPI and rounded to whole numbers with Python `round()`. -/
def mmForm (wpx hpx : ℤ) (dpi : ℚ) : List Char :=
  customDot ++ intToChars (pyRound (((wpx : ℚ) / dpi) * mmPerInch)) ++
    'x' :: (intToChars (pyRound (((hpx : ℚ) / dpi) * mmPerInch)) ++ ['m', 'm'])

/-- Body of `_convert_to_cups_media_format` after the `Custom.` prefix
handling (lines 157-197): search the size pattern; an explicit unit is
emitted directly; otherwise the configured pixel size (if any) is
converted to whole millimeters at the given DPI; otherwise a unitless
parse is emitted in bare-points form, and an unparseable identifier is
returned unchanged. -/
def convertCore (area : Option (List (List Char × ℤ × ℤ))) (dpi : ℚ)
    (label_size : List Char) : List Char :=
  match searchSize label_size with
  | some (w, h, some u) => customDot ++ w ++ 'x' :: (h ++ sunitChars u)
  | some (w, h, none) =>
    match areaFind area label_size with
    | some (wpx, hpx) => mmForm wpx hpx dpi
    | none => customDot ++ w ++ 'x' :: h
  | none =>
    match areaFind area label_size with
    | some (wpx, hpx) => mmForm wpx hpx dpi
    | none => label_size

/-- Model of `_convert_to_cups_media_format` (lines 126-197): an identifier already
in `Custom.<parseable>` form is returned unchanged; otherwise the prefix
(if present) is stripped and the stripped identifier is converted. -/
def convert_to_cups_media_format (area : Option (List (List Char × ℤ × ℤ))) (dpi : ℚ)
    (label0 : List Char) : List Char :=
  if customDot.isPrefixOf label0 then
    match searchSize (label0.drop 7) with
    | some _ => label0
    | none => convertCore area dpi (label0.drop 7)
  else convertCore area dpi label0

/-- The CUPS-enabled merge of `get_label_sizes` (lines 310-331): convert
every configured key to canonical form, then append each converted entry
to the sink-reported list exactly when its key is not among the
sink-reported keys; if the merge is empty, fall back to the converted
configured list. -/
def get_label_sizes_cups (cups : List (List Char × List Char))
    (cfg : List (List Char × List Char)) (area : Option (List (List Char × ℤ × ℤ)))
    (dpi : ℚ) : List (List Char × List Char) :=
  let customSizes := cfg.map (fun kv => (convert_to_cups_media_format area dpi kv.1, kv.2))
  let cupsKeys := cups.map Prod.fst
  let merged := customSizes.foldl (fun acc c => if c.1 ∈ cupsKeys then acc else acc ++ [c]) cups
  if merged.isEmpty then customSizes else merged

/-- Physical interpretation of an optional captured unit: a missing suffix
means points (CUPS convention, source comments lines 131-135 and 173). -/
def physFromOpt : Option SUnit → PhysUnit
  | none => .pt
  | some .uin => .inch
  | some .umm => .mm
  | some .ucm => .cm

/-- The spec's `SizeKeyParser.parse`: strip an optional `Custom.` prefix,
search `PARSEABLE_SIZE_PATTERN`, and interpret the captured groups as a
physical size, a missing unit suffix meaning points (the CUPS convention
recorded in the source comments, lines 131-135 and 173). -/
def sizeKeyParse (s : List Char) : Option (ℚ × ℚ × PhysUnit) :=
  match searchSize (if customDot.isPrefixOf s then s.drop 7 else s) with
  | none => none
  | some (w, h, u) => some (numListQ w, numListQ h, physFromOpt u)

/-- The string `rotated`. -/
def strRotated : List Char := ['r', 'o', 't', 'a', 't', 'e', 'd']

/-- The string `standard`. -/
def strStandard : List Char := ['s', 't', 'a', 'n', 'd', 'a', 'r', 'd']

/-- The orientation post-processing of `get_label_context`
(`brother_ql_web.py` lines 446-448): first swap to make the width the
larger dimension, then swap again when the requested orientation is
`rotated`. -/
def orientDims (w h : ℤ) (o : List Char) : ℤ × ℤ :=
  let p := if h > w then (h, w) else (w, h)
  if o = strRotated then (p.2, p.1) else p

/-- The string `red`. -/
def strRed : List Char := ['r', 'e', 'd']

/-- Python's substring test `needle in hay`. -/
def hasSub (needle : List Char) : List Char → Bool
  | [] => needle.isEmpty
  | c :: t => needle.isPrefixOf (c :: t) || hasSub needle t

/-- The text fill colour of `get_label_context` (`brother_ql_web.py` line
424): red exactly when the label-size identifier contains `red`. -/
def fillColor (label_size : List Char) : ℕ × ℕ × ℕ :=
  if hasSub strRed label_size then (255, 0, 0) else (0, 0, 0)

/-- A numeral as captured by the `\d+(?:\.\d+)?` group: a non-empty digit
string with an optional non-empty fractional digit string. -/
structure SizeNum where
  ip : List Char
  fp : Option (List Char)
  ip_nonempty : ip ≠ []
  ip_digits : ∀ c ∈ ip, isDig c = true
  fp_nonempty : ∀ f, fp = some f → f ≠ []
  fp_digits : ∀ f, fp = some f → ∀ c ∈ f, isDig c = true

/-- The textual form of a numeral. -/
def SizeNum.render (n : SizeNum) : List Char :=
  n.ip ++ (match n.fp with | none => [] | some f => '.' :: f)

/-- A tail that cannot extend a numeral match: it starts with no digit, no
dot and no whitespace (or is empty). -/
def goodTail (s : List Char) : Prop :=
  match s with
  | [] => True
  | c :: _ => isDig c = false ∧ c ≠ '.' ∧ isSpc c = false

/-- Unit suffix choices enumerated by the round-trip claim:
`in`, `mm`, `cm`, `pt`, or omitted. -/
inductive ClaimUnit
  | cin
  | cmm
  | ccm
  | cpt
  | cnone
deriving DecidableEq

/-- The suffix characters of a claim unit. -/
def claimSuffix : ClaimUnit → List Char
  | .cin => ['i', 'n']
  | .cmm => ['m', 'm']
  | .ccm => ['c', 'm']
  | .cpt => ['p', 't']
  | .cnone => []

/-- The physical unit a claim-unit suffix denotes (omitted and `pt` both
mean points). -/
def claimPhys : ClaimUnit → PhysUnit
  | .cin => .inch
  | .cmm => .mm
  | .ccm => .cm
  | .cpt => .pt
  | .cnone => .pt

/-- The numeral `4`. -/
def num4 : SizeNum where
  ip := ['4']
  fp := none
  ip_nonempty := by decide
  ip_digits := by decide
  fp_nonempty := fun _ hf => nomatch hf
  fp_digits := fun _ hf => nomatch hf

/-- The numeral `6`. -/
def num6 : SizeNum where
  ip := ['6']
  fp := none
  ip_nonempty := by decide
  ip_digits := by decide
  fp_nonempty := fun _ hf => nomatch hf
  fp_digits := fun _ hf => nomatch hf

/-- The structured dictionary returned by `print_label`. -/
structure PrintResult where
  success : Bool
  message : List Char
deriving DecidableEq

/-- Printer-name fallback chain of `print_label` (lines 464-470): request
context, then configuration, then the CUPS default. -/
def pickPrinter (ctxP cfgP : Option (List Char)) (defP : List Char) : List Char :=
  match ctxP with
  | some p => p
  | none =>
    match cfgP with
    | some p => p
    | none => defP

/-- The `media` option computed by `print_label` (lines 476-515).  When a
label size is given (and truthy), a media name is always added: with CUPS
enabled, a size reported by CUPS is passed as-is, a configured size is
converted to canonical form, any other size is passed as-is (also when the
media query fails — the inner `except` swallows the error); with CUPS
disabled the size is passed unverified. -/
def mediaOption (useCups : Bool) (labelSize : Option (List Char))
    (mediaR : Except (List Char) (List (List Char)))
    (cfgSizes : List (List Char × List Char))
    (area : Option (List (List Char × ℤ × ℤ))) (dpi : ℚ) : Option (List Char) :=
  match labelSize with
  | none => none
  | some ls =>
    if ls.isEmpty then none
    else
      some
        (if useCups then
          match mediaR with
          | .ok ms =>
            if ls ∈ ms then ls
            else
              match lookupL ls cfgSizes with
              | some _ => convert_to_cups_media_format area dpi ls
              | none => ls
          | .error _ => ls
        else ls)

/-- The `try`-block body of `print_label` (lines 459-520): saving the
bitmap, opening the CUPS connection and submitting the file can each
raise; everything in between is pure.  Each fallible step is modelled by
its outcome. -/
def printBody (saveR connR : Except (List Char) Unit) (ctxP cfgP : Option (List Char))
    (defP : List Char) (useCups : Bool) (labelSize : Option (List Char))
    (mediaR : Except (List Char) (List (List Char)))
    (cfgSizes : List (List Char × List Char))
    (area : Option (List (List Char × ℤ × ℤ))) (dpi : ℚ)
    (printR : Except (List Char) Unit) : Except (List Char) (List Char × Option (List Char)) :=
  saveR.bind fun _ =>
    connR.bind fun _ =>
      let pn := pickPrinter ctxP cfgP defP
      let media := mediaOption useCups labelSize mediaR cfgSizes area dpi
      printR.bind fun _ => Except.ok (pn, media)

/-- Model of `print_label` (lines 457-524): the whole body runs inside one
`try`/`except Exception`; a success returns `success = True`, any caught
exception returns `success = False` with the exception text as message. -/
def print_label (saveR connR : Except (List Char) Unit) (ctxP cfgP : Option (List Char))
    (defP : List Char) (useCups : Bool) (labelSize : Option (List Char))
    (mediaR : Except (List Char) (List (List Char)))
    (cfgSizes : List (List Char × List Char))
    (area : Option (List (List Char × ℤ × ℤ))) (dpi : ℚ)
    (printR : Except (List Char) Unit) : PrintResult :=
  match printBody saveR connR ctxP cfgP defP useCups labelSize mediaR cfgSizes area dpi printR with
  | .ok _ => { success := true, message := [] }
  | .error e => { success := false, message := e }

theorem takeWhile_append_all {p : Char → Bool} {xs : List Char} (ys : List Char)
    (h : ∀ c ∈ xs, p c = true) :
    (xs ++ ys).takeWhile p = xs ++ ys.takeWhile p := by
  induction xs with
  | nil => simp
  | cons a t ih =>
    have ha := h a (List.mem_cons_self a t)
    simp only [List.cons_append, List.takeWhile_cons_of_pos ha]
    rw [ih (fun c hc => h c (List.mem_cons_of_mem a hc))]

theorem dropWhile_append_all {p : Char → Bool} {xs : List Char} (ys : List Char)
    (h : ∀ c ∈ xs, p c = true) :
    (xs ++ ys).dropWhile p = ys.dropWhile p := by
  induction xs with
  | nil => simp
  | cons a t ih =>
    have ha := h a (List.mem_cons_self a t)
    simp only [List.cons_append, List.dropWhile_cons_of_pos ha]
    exact ih (fun c hc => h c (List.mem_cons_of_mem a hc))

theorem takeWhile_isDig_goodTail : ∀ {s : List Char}, goodTail s → s.takeWhile isDig = []
  | [], _ => rfl
  | _ :: _, hs => List.takeWhile_cons_of_neg (by simp [hs.1])

theorem dropWhile_isDig_goodTail : ∀ {s : List Char}, goodTail s → s.dropWhile isDig = s
  | [], _ => rfl
  | _ :: _, hs => List.dropWhile_cons_of_neg (by simp [hs.1])

theorem skipSpc_goodTail : ∀ {s : List Char}, goodTail s → skipSpc s = s
  | [], _ => rfl
  | _ :: _, hs => List.dropWhile_cons_of_neg (by simp [hs.2.2])

theorem isDig_not_spc {c : Char} (h : isDig c = true) : isSpc c = false := by
  simp only [isDig, decide_eq_true_eq] at h
  simp only [isSpc, decide_eq_false_iff_not]
  omega

theorem isDig_not_dot {c : Char} (h : isDig c = true) : c ≠ '.' := by
  intro he
  subst he
  exact absurd h (by decide)

theorem scanNum_render (n : SizeNum) (s : List Char) (hs : goodTail s) :
    scanNum (n.render ++ s) = some (n.render, s) := by
  cases hfp : n.fp with
  | none =>
    have hr : n.render = n.ip := by simp [SizeNum.render, hfp]
    rw [hr]
    unfold scanNum
    rw [takeWhile_append_all s n.ip_digits, takeWhile_isDig_goodTail hs, List.append_nil,
      dropWhile_append_all s n.ip_digits, dropWhile_isDig_goodTail hs]
    rw [if_neg (by simp [List.isEmpty_iff, n.ip_nonempty])]
    cases s with
    | nil => rfl
    | cons c t =>
      simp only
      rw [if_neg hs.2.1]
  | some f =>
    have hf_ne : f ≠ [] := n.fp_nonempty f hfp
    have hf_dig : ∀ c ∈ f, isDig c = true := n.fp_digits f hfp
    have hr : n.render = n.ip ++ '.' :: f := by simp [SizeNum.render, hfp]
    rw [hr]
    have hassoc : (n.ip ++ '.' :: f) ++ s = n.ip ++ '.' :: (f ++ s) := by simp
    rw [hassoc]
    unfold scanNum
    rw [takeWhile_append_all _ n.ip_digits, dropWhile_append_all _ n.ip_digits]
    rw [List.takeWhile_cons_of_neg (by decide), List.dropWhile_cons_of_neg (by decide)]
    rw [List.append_nil]
    rw [if_neg (by simp [List.isEmpty_iff, n.ip_nonempty])]
    simp only [if_pos trivial]
    rw [takeWhile_append_all s hf_dig, takeWhile_isDig_goodTail hs, List.append_nil,
      dropWhile_append_all s hf_dig, dropWhile_isDig_goodTail hs]
    rw [if_neg (by simp [List.isEmpty_iff, hf_ne])]

theorem render_cons (n : SizeNum) :
    ∃ c t, n.render = c :: t ∧ isDig c = true := by
  cases hip : n.ip with
  | nil => exact absurd hip n.ip_nonempty
  | cons c t =>
    refine ⟨c, t ++ (match n.fp with | none => [] | some f => '.' :: f), ?_,
      n.ip_digits c (by rw [hip]; exact List.mem_cons_self c t)⟩
    simp [SizeNum.render, hip]

theorem skipSpc_render (n : SizeNum) (s : List Char) :
    skipSpc (n.render ++ s) = n.render ++ s := by
  obtain ⟨c, t, he, hd⟩ := render_cons n
  rw [he, List.cons_append]
  exact List.dropWhile_cons_of_neg (by simp [isDig_not_spc hd])

theorem matchAt_render (w h : SizeNum) (s : List Char) (hs : goodTail s) :
    matchAt (w.render ++ 'x' :: (h.render ++ s)) = some (w.render, h.render, scanUnit s) := by
  have hx : goodTail ('x' :: (h.render ++ s)) := ⟨by decide, by decide, by decide⟩
  have hsp : skipSpc ('x' :: (h.render ++ s)) = 'x' :: (h.render ++ s) :=
    List.dropWhile_cons_of_neg (by decide)
  simp only [matchAt, scanNum_render w _ hx, hsp, skipSpc_render h s, scanNum_render h s hs,
    skipSpc_goodTail hs]
  rw [if_pos (by decide)]

theorem searchSize_render (w h : SizeNum) (s : List Char) (hs : goodTail s) :
    searchSize (w.render ++ 'x' :: (h.render ++ s)) = some (w.render, h.render, scanUnit s) := by
  obtain ⟨c, t, he, hd⟩ := render_cons w
  rw [he, List.cons_append, searchSize, ← List.cons_append, ← he, matchAt_render w h s hs]

theorem customDot_not_pref_digit {c : Char} (hd : isDig c = true) (t : List Char) :
    customDot.isPrefixOf (c :: t) = false := by
  have hne : ('C' == c) = false := by
    apply beq_eq_false_iff_ne.2
    intro he
    rw [← he] at hd
    exact absurd hd (by decide)
  show (('C' == c) && List.isPrefixOf _ t) = false
  rw [hne, Bool.false_and]

theorem customDot_not_prefix_render (n : SizeNum) (rest : List Char) :
    customDot.isPrefixOf (n.render ++ rest) = false := by
  obtain ⟨c, t, he, hd⟩ := render_cons n
  rw [he, List.cons_append]
  exact customDot_not_pref_digit hd _

theorem customDot_prefix_append (X : List Char) :
    customDot.isPrefixOf (customDot ++ X) = true := by
  simp [ List.isPrefixOf_iff_prefix]

theorem customDot_drop (X : List Char) : (customDot ++ X).drop 7 = X :=
  List.drop_left' rfl

theorem convertFormat_not_custom (area : Option (List (List Char × ℤ × ℤ))) (dpi : ℚ)
    (n : SizeNum) (rest : List Char) :
    convert_to_cups_media_format area dpi (n.render ++ rest) =
      convertCore area dpi (n.render ++ rest) := by
  unfold convert_to_cups_media_format
  rw [if_neg (by simp [customDot_not_prefix_render n rest])]

theorem sizeKeyParse_render (w h : SizeNum) (s : List Char) (hs : goodTail s) :
    sizeKeyParse (w.render ++ 'x' :: (h.render ++ s)) =
      some (numListQ w.render, numListQ h.render, physFromOpt (scanUnit s)) := by
  unfold sizeKeyParse
  rw [if_neg (by simp [customDot_not_prefix_render])]
  rw [searchSize_render w h s hs]

theorem sizeKeyParse_custom_render (w h : SizeNum) (s : List Char) (hs : goodTail s) :
    sizeKeyParse (customDot ++ (w.render ++ 'x' :: (h.render ++ s))) =
      some (numListQ w.render, numListQ h.render, physFromOpt (scanUnit s)) := by
  unfold sizeKeyParse
  rw [if_pos (customDot_prefix_append _), customDot_drop]
  rw [searchSize_render w h s hs]

/-- C1 (amended): for an identifier the media-name regex does not match
anywhere and that has no `LABEL_PRINTABLE_AREA` entry,
`get_label_dimensions` returns exactly the fixed fallback `(300, 200)`.
(The unamended universal positivity fails, see the counterexample.) -/
theorem claim1_unparseable_fallback (dpi : ℚ) (area : Option (List (List Char × ℤ × ℤ)))
    (ls : List Char) (h1 : searchMedia ls = none) (h2 : areaFind area ls = none) :
    get_label_dimensions dpi area ls = (300, 200) := by
  unfold get_label_dimensions mediaToDims
  rw [h1, h2]

/-- Witness for C1 at the unparseable identifier `foo` with no
configuration. -/
theorem claim1_unparseable_fallback_wit :
    searchMedia (['f', 'o', 'o']) = none ∧ areaFind none (['f', 'o', 'o']) = none ∧
    get_label_dimensions 203 none (['f', 'o', 'o']) = (300, 200) :=
  ⟨rfl, rfl, claim1_unparseable_fallback 203 none (['f', 'o', 'o']) rfl rfl⟩

/-- C1 counterexample: the parseable identifier `0x0in` resolves to
`(0, 0)`, whose components are not strictly positive, refuting the claim
that every resolved pixel pair is strictly positive. -/
theorem claim1_cex :
    get_label_dimensions 203 none (['0', 'x', '0', 'i', 'n']) = (0, 0) ∧ ¬ (0 : ℤ) < 0 :=
  ⟨by with_unfolding_all rfl, by decide⟩

/-- C2: after resolution the final pair is `(max, min)` for orientation
`standard` and `(min, max)` for orientation `rotated` — the
canonicalize-to-wide swap happens first, the rotation swap second. -/
theorem claim2_orientation (w h : ℤ) :
    orientDims w h strStandard = (max w h, min w h) ∧
    orientDims w h strRotated = (min w h, max w h) := by
  rcases le_or_lt h w with hle | hlt
  · have hng : ¬ h > w := not_lt.2 hle
    constructor
    · simp only [orientDims, if_neg hng, if_neg (show ¬ strStandard = strRotated by decide)]
      rw [max_eq_left hle, min_eq_right hle]
    · simp only [orientDims, if_neg hng, if_pos rfl, if_true]
      rw [max_eq_left hle, min_eq_right hle]
  · have hgt : h > w := hlt
    have hle2 : w ≤ h := le_of_lt hlt
    constructor
    · simp only [orientDims, if_pos hgt, if_neg (show ¬ strStandard = strRotated by decide)]
      rw [max_eq_right hle2, min_eq_left hle2]
    · simp only [orientDims, if_pos hgt, if_pos rfl, if_true]
      rw [max_eq_right hle2, min_eq_left hle2]

theorem goodTail_claimSuffix (u : ClaimUnit) : goodTail (claimSuffix u) := by
  cases u
  case cnone => trivial
  all_goals exact ⟨by decide, by decide, by decide⟩

theorem claimPhys_eq_physFromOpt (u : ClaimUnit) :
    physFromOpt (scanUnit (claimSuffix u)) = claimPhys u := by
  cases u <;> decide

/-- C3: for every numeral pair and unit suffix in
`{in, mm, cm, pt, omitted}`, if the identifier `WxHunit` has no configured
pixel size, then parsing the converter's output recovers the same physical
size as parsing the identifier directly — an omitted or `pt` suffix
meaning points. -/
theorem claim3_round_trip (w h : SizeNum) (u : ClaimUnit)
    (a : List (List Char × ℤ × ℤ)) (dpi : ℚ)
    (hcfg : lookupL (w.render ++ 'x' :: (h.render ++ claimSuffix u)) a = none) :
    sizeKeyParse (convert_to_cups_media_format (some a) dpi
        (w.render ++ 'x' :: (h.render ++ claimSuffix u))) =
      some (numListQ w.render, numListQ h.render, claimPhys u) ∧
    sizeKeyParse (w.render ++ 'x' :: (h.render ++ claimSuffix u)) =
      some (numListQ w.render, numListQ h.render, claimPhys u) := by
  have hgt := goodTail_claimSuffix u
  constructor
  · rw [convertFormat_not_custom]
    unfold convertCore
    rw [searchSize_render w h _ hgt]
    cases hscan : scanUnit (claimSuffix u) with
    | some su =>
      dsimp only
      have hsu : scanUnit (sunitChars su) = some su := by cases su <;> decide
      rw [List.append_assoc, sizeKeyParse_custom_render w h (sunitChars su)
        (by cases su <;> exact ⟨by decide, by decide, by decide⟩)]
      rw [hsu, ← claimPhys_eq_physFromOpt u, hscan]
    | none =>
      dsimp only [areaFind]
      rw [hcfg]
      have hnil : customDot ++ w.render ++ 'x' :: h.render =
          customDot ++ (w.render ++ 'x' :: (h.render ++ [])) := by simp
      rw [hnil, sizeKeyParse_custom_render w h [] trivial,
        ← claimPhys_eq_physFromOpt u, hscan]
      rfl
  · rw [sizeKeyParse_render w h _ hgt, claimPhys_eq_physFromOpt u]

/-- Witness for C3 at `4x6pt` with an empty configuration at DPI 203. -/
theorem claim3_round_trip_wit :
    lookupL (['4', 'x', '6', 'p', 't']) ([] : List (List Char × ℤ × ℤ)) = none ∧
    sizeKeyParse (convert_to_cups_media_format (some []) 203 (['4', 'x', '6', 'p', 't'])) =
      some (numListQ ['4'], numListQ ['6'], PhysUnit.pt) ∧
    sizeKeyParse (['4', 'x', '6', 'p', 't']) =
      some (numListQ ['4'], numListQ ['6'], PhysUnit.pt) :=
  ⟨rfl, (claim3_round_trip num4 num6 ClaimUnit.cpt [] 203 rfl).1,
    (claim3_round_trip num4 num6 ClaimUnit.cpt [] 203 rfl).2⟩

/-- C4: for an identifier `WxH` that parses with no unit suffix, the
converter emits the bare-points form `Custom.WxH` exactly when no
configured pixel size exists for the identifier, and the
pixels-to-millimeters form exactly when one does. -/
theorem claim4_points_vs_config (w h : SizeNum) (a : List (List Char × ℤ × ℤ)) (dpi : ℚ) :
    (lookupL (w.render ++ 'x' :: h.render) a = none →
      convert_to_cups_media_format (some a) dpi (w.render ++ 'x' :: h.render) =
        customDot ++ w.render ++ 'x' :: h.render) ∧
    (∀ wpx hpx : ℤ, lookupL (w.render ++ 'x' :: h.render) a = some (wpx, hpx) →
      convert_to_cups_media_format (some a) dpi (w.render ++ 'x' :: h.render) =
        mmForm wpx hpx dpi) := by
  have hsearch : searchSize (w.render ++ 'x' :: h.render) =
      some (w.render, h.render, none) := by
    have hr := searchSize_render w h [] trivial
    rw [List.append_nil] at hr
    exact hr
  constructor
  · intro hnone
    rw [convertFormat_not_custom]
    unfold convertCore
    rw [hsearch]
    dsimp only [areaFind]
    rw [hnone]
  · intro wpx hpx hsome
    rw [convertFormat_not_custom]
    unfold convertCore
    rw [hsearch]
    dsimp only [areaFind]
    rw [hsome]

/-- Witness for C4 at `4x6`, DPI 203: empty configuration gives the bare
points form, a configured pixel size `(203, 406)` gives the millimeter
form. -/
theorem claim4_points_vs_config_wit :
    lookupL (['4', 'x', '6']) ([] : List (List Char × ℤ × ℤ)) = none ∧
    convert_to_cups_media_format (some []) 203 (['4', 'x', '6']) =
      customDot ++ ['4', 'x', '6'] ∧
    lookupL (['4', 'x', '6']) [(['4', 'x', '6'], ((203 : ℤ), (406 : ℤ)))] = some (203, 406) ∧
    convert_to_cups_media_format (some [(['4', 'x', '6'], (203, 406))]) 203 (['4', 'x', '6']) =
      mmForm 203 406 203 :=
  ⟨rfl, (claim4_points_vs_config num4 num6 [] 203).1 rfl, rfl,
    (claim4_points_vs_config num4 num6 [(['4', 'x', '6'], (203, 406))] 203).2 203 406 rfl⟩

/-- C5 (amended): every pixel dimension equals the physical length in
inches multiplied by the DPI and then truncated with Python `int()`
(floor), not rounded to nearest; the cross-unit identities at DPI 203
hold, and 3.5 cm yields the truncated 279. -/
theorem claim5_truncation :
    (∀ (v dpi : ℚ) (u : PhysUnit), toPixels v u dpi = (inchesOf v u * dpi).floor) ∧
    toPixels 1 PhysUnit.inch 203 = 203 ∧
    toPixels (127 / 5) PhysUnit.mm 203 = 203 ∧
    toPixels (7 / 2) PhysUnit.cm 203 = 279 := by
  refine ⟨fun v dpi u => ?_, ?_, ?_, ?_⟩
  · cases u <;> rfl
  all_goals with_unfolding_all rfl

/-- C5 counterexample: for 3.5 cm at DPI 203 the code produces the
truncated value 279, not the nearest integer 280 demanded by the claim. -/
theorem claim5_cex :
    toPixels (7 / 2) PhysUnit.cm 203 = 279 ∧
    pyRound (inchesOf (7 / 2) PhysUnit.cm * 203) = 280 ∧ (279 : ℤ) ≠ 280 :=
  ⟨by with_unfolding_all rfl, by with_unfolding_all rfl, by decide⟩

theorem merge_foldl (ks : List (List Char)) (l acc : List (List Char × List Char)) :
    l.foldl (fun acc c => if c.1 ∈ ks then acc else acc ++ [c]) acc =
      acc ++ l.filter (fun c => !decide (c.1 ∈ ks)) := by
  induction l generalizing acc with
  | nil => simp
  | cons c t ih =>
    simp only [List.foldl_cons, List.filter_cons]
    by_cases hc : c.1 ∈ ks
    · rw [if_pos hc, ih]
      simp [hc]
    · rw [if_neg hc, ih]
      simp [hc]

/-- C6 (amended): the merged catalog is exactly the sink-reported entries
followed by those canonicalized configured entries whose key is absent
from the sink-reported key set — the filter never consults the keys of
previously added configured entries, so sink entries win ties but two
configured keys with the same canonical form both survive. -/
theorem claim6_merge_shape (cups cfg : List (List Char × List Char))
    (area : Option (List (List Char × ℤ × ℤ))) (dpi : ℚ) :
    get_label_sizes_cups cups cfg area dpi =
      cups ++ (cfg.map (fun kv => (convert_to_cups_media_format area dpi kv.1, kv.2))).filter
        (fun c => !decide (c.1 ∈ cups.map Prod.fst)) := by
  simp only [get_label_sizes_cups]
  rw [merge_foldl]
  cases cups with
  | cons p ps => simp
  | nil =>
    simp only [List.map_nil, List.nil_append]
    have hfilter : ∀ m : List (List Char × List Char),
        m.filter (fun c => !decide (c.1 ∈ ([] : List (List Char)))) = m := by
      intro m
      apply List.filter_eq_self.2
      intro a _
      simp
    rw [hfilter, ite_self]

/-- C6 counterexample: with an empty sink catalog, the two distinct
configured keys `4x6in` and `Custom.4x6in` both canonicalize to
`Custom.4x6in` and both survive the merge, so the merged catalog has a
duplicate key, refuting the no-duplicates claim. -/
theorem claim6_cex :
    get_label_sizes_cups []
        [(['4', 'x', '6', 'i', 'n'], ['a']),
          (['C', 'u', 's', 't', 'o', 'm', '.', '4', 'x', '6', 'i', 'n'], ['b'])] none 203 =
      [(customDot ++ ['4', 'x', '6', 'i', 'n'], ['a']),
        (customDot ++ ['4', 'x', '6', 'i', 'n'], ['b'])] ∧
    ¬ ((get_label_sizes_cups []
        [(['4', 'x', '6', 'i', 'n'], ['a']),
          (['C', 'u', 's', 't', 'o', 'm', '.', '4', 'x', '6', 'i', 'n'], ['b'])] none
        203).map Prod.fst).Nodup :=
  ⟨by with_unfolding_all rfl, by with_unfolding_all decide⟩

/-- C7 (amended): `PARSEABLE_SIZE_PATTERN` does not list `pt` as a unit;
because the search is unanchored, a trailing `pt` (any casing) is simply
ignored and the parse succeeds with the unit group empty, which downstream
means points — while `in`, `mm`, `cm` are captured as units. -/
theorem claim7_pt_not_a_unit (w h : SizeNum) :
    sizeKeyParse (w.render ++ 'x' :: (h.render ++ ['p', 't'])) =
      some (numListQ w.render, numListQ h.render, PhysUnit.pt) ∧
    sizeKeyParse (w.render ++ 'x' :: (h.render ++ ['P', 'T'])) =
      some (numListQ w.render, numListQ h.render, PhysUnit.pt) ∧
    sizeKeyParse (w.render ++ 'x' :: (h.render ++ ['P', 't'])) =
      some (numListQ w.render, numListQ h.render, PhysUnit.pt) ∧
    sizeKeyParse (w.render ++ 'x' :: (h.render ++ ['p', 'T'])) =
      some (numListQ w.render, numListQ h.render, PhysUnit.pt) ∧
    sizeKeyParse (w.render ++ 'x' :: (h.render ++ ['i', 'n'])) =
      some (numListQ w.render, numListQ h.render, PhysUnit.inch) ∧
    sizeKeyParse (w.render ++ 'x' :: (h.render ++ ['m', 'm'])) =
      some (numListQ w.render, numListQ h.render, PhysUnit.mm) ∧
    sizeKeyParse (w.render ++ 'x' :: (h.render ++ ['c', 'm'])) =
      some (numListQ w.render, numListQ h.render, PhysUnit.cm) := by
  refine ⟨?_, ?_, ?_, ?_, ?_, ?_, ?_⟩
  · rw [sizeKeyParse_render w h (['p', 't']) ⟨by decide, by decide, by decide⟩,
      (by decide : physFromOpt (scanUnit (['p', 't'])) = PhysUnit.pt)]
  · rw [sizeKeyParse_render w h (['P', 'T']) ⟨by decide, by decide, by decide⟩,
      (by decide : physFromOpt (scanUnit (['P', 'T'])) = PhysUnit.pt)]
  · rw [sizeKeyParse_render w h (['P', 't']) ⟨by decide, by decide, by decide⟩,
      (by decide : physFromOpt (scanUnit (['P', 't'])) = PhysUnit.pt)]
  · rw [sizeKeyParse_render w h (['p', 'T']) ⟨by decide, by decide, by decide⟩,
      (by decide : physFromOpt (scanUnit (['p', 'T'])) = PhysUnit.pt)]
  · rw [sizeKeyParse_render w h (['i', 'n']) ⟨by decide, by decide, by decide⟩,
      (by decide : physFromOpt (scanUnit (['i', 'n'])) = PhysUnit.inch)]
  · rw [sizeKeyParse_render w h (['m', 'm']) ⟨by decide, by decide, by decide⟩,
      (by decide : physFromOpt (scanUnit (['m', 'm'])) = PhysUnit.mm)]
  · rw [sizeKeyParse_render w h (['c', 'm']) ⟨by decide, by decide, by decide⟩,
      (by decide : physFromOpt (scanUnit (['c', 'm'])) = PhysUnit.cm)]

/-- C7 counterexample: the parser does not capture `pt` as a unit suffix
the way it captures `in` — for `4x6pt` the unit group is empty and the
identifier is still subject to the configured-pixel lookup, producing a
millimeter form, while `4x6in` bypasses the configuration entirely. -/
theorem claim7_cex :
    searchSize (['4', 'x', '6', 'p', 't']) = some (['4'], ['6'], (none : Option SUnit)) ∧
    searchSize (['4', 'x', '6', 'i', 'n']) = some (['4'], ['6'], some SUnit.uin) ∧
    convert_to_cups_media_format (some [(['4', 'x', '6', 'p', 't'], (100, 100))]) 203
        (['4', 'x', '6', 'p', 't']) = customDot ++ ['1', '3', 'x', '1', '3', 'm', 'm'] ∧
    convert_to_cups_media_format (some [(['4', 'x', '6', 'i', 'n'], (100, 100))]) 203
        (['4', 'x', '6', 'i', 'n']) = customDot ++ ['4', 'x', '6', 'i', 'n'] := by
  refine ⟨by decide, by decide, by with_unfolding_all rfl, by decide⟩

/-- C8 (amended): `print_label` never raises — every failing step is
caught and mapped to `success = false` with the caught error's text
(possibly empty) as the message, the first failing step winning; the
result is `success = true` with an empty message exactly when saving,
connecting and submitting all succeed, independently of the printer-name
and media-option computation. -/
theorem claim8_outcome (saveR connR : Except (List Char) Unit) (ctxP cfgP : Option (List Char))
    (defP : List Char) (useCups : Bool) (labelSize : Option (List Char))
    (mediaR : Except (List Char) (List (List Char)))
    (cfgSizes : List (List Char × List Char))
    (area : Option (List (List Char × ℤ × ℤ))) (dpi : ℚ)
    (printR : Except (List Char) Unit) :
    print_label saveR connR ctxP cfgP defP useCups labelSize mediaR cfgSizes area dpi printR =
      match saveR with
      | .error e => { success := false, message := e }
      | .ok _ =>
        match connR with
        | .error e => { success := false, message := e }
        | .ok _ =>
          match printR with
          | .error e => { success := false, message := e }
          | .ok _ => { success := true, message := [] } := by
  cases saveR <;> cases connR <;> cases printR <;> rfl

/-- C8 counterexample: a submission failure whose exception text is empty
yields `success = false` with an empty message, refuting the claim that a
failed print always carries a non-empty message. -/
theorem claim8_cex :
    print_label (Except.ok ()) (Except.ok ()) none none [] true none (Except.ok []) [] none 203
        (Except.error []) = { success := false, message := [] } ∧
    ¬ ([] : List Char) ≠ [] :=
  ⟨rfl, fun hne => hne rfl⟩

/-- C9 (amended): any identifier that starts with `Custom.` and whose
remainder matches the size pattern is returned exactly as given — in
particular every canonical output of the converter is a fixed point; full
idempotence on arbitrary identifiers fails (see the counterexample). -/
theorem claim9_custom_fixed (area : Option (List (List Char × ℤ × ℤ))) (dpi : ℚ)
    (s : List Char) (g : List Char × List Char × Option SUnit)
    (h1 : customDot.isPrefixOf s = true) (h2 : searchSize (s.drop 7) = some g) :
    convert_to_cups_media_format area dpi s = s := by
  unfold convert_to_cups_media_format
  rw [if_pos h1, h2]

/-- Witness for C9 at `Custom.4x6in`. -/
theorem claim9_custom_fixed_wit :
    customDot.isPrefixOf (customDot ++ ['4', 'x', '6', 'i', 'n']) = true ∧
    searchSize ((customDot ++ ['4', 'x', '6', 'i', 'n']).drop 7) =
      some (['4'], ['6'], some SUnit.uin) ∧
    convert_to_cups_media_format none 203 (customDot ++ ['4', 'x', '6', 'i', 'n']) =
      customDot ++ ['4', 'x', '6', 'i', 'n'] :=
  ⟨by decide, by decide,
    claim9_custom_fixed none 203 (customDot ++ ['4', 'x', '6', 'i', 'n'])
      (['4'], ['6'], some SUnit.uin) (by decide) (by decide)⟩

/-- C9 counterexample: the converter is not idempotent — `Custom.Custom.abc`
maps to `Custom.abc`, and applying the converter to that output strips the
prefix again, giving `abc`. -/
theorem claim9_cex :
    convert_to_cups_media_format none 203
        (['C', 'u', 's', 't', 'o', 'm', '.', 'C', 'u', 's', 't', 'o', 'm', '.', 'a', 'b', 'c']) =
      ['C', 'u', 's', 't', 'o', 'm', '.', 'a', 'b', 'c'] ∧
    convert_to_cups_media_format none 203
        (convert_to_cups_media_format none 203
          (['C', 'u', 's', 't', 'o', 'm', '.', 'C', 'u', 's', 't', 'o', 'm', '.', 'a', 'b', 'c'])) ≠
      convert_to_cups_media_format none 203
        (['C', 'u', 's', 't', 'o', 'm', '.', 'C', 'u', 's', 't', 'o', 'm', '.', 'a', 'b', 'c']) :=
  ⟨by decide, by decide⟩

theorem hasSub_true_iff (n s : List Char) : hasSub n s = true ↔ n <:+: s := by
  induction s with
  | nil =>
    simp only [hasSub, List.isEmpty_iff, List.infix_nil]
  | cons c t ih =>
    simp only [hasSub, Bool.or_eq_true, List.isPrefixOf_iff_prefix, ih, List.infix_cons_iff]

/-- C10: the text fill colour is red `(255, 0, 0)` exactly when the
label-size identifier contains the substring `red`, and black `(0, 0, 0)`
otherwise; it is a function of the size identifier alone. -/
theorem claim10_red_fill (s : List Char) :
    (fillColor s = (255, 0, 0) ↔ strRed <:+: s) ∧
    (fillColor s = (0, 0, 0) ↔ ¬ strRed <:+: s) := by
  unfold fillColor
  by_cases hh : hasSub strRed s
  · rw [if_pos hh]
    have hi := (hasSub_true_iff strRed s).1 hh
    exact ⟨⟨fun _ => hi, fun _ => rfl⟩,
      ⟨fun he => absurd he (by decide), fun hn => absurd hi hn⟩⟩
  · rw [if_neg hh]
    have hni : ¬ strRed <:+: s := fun hi => hh ((hasSub_true_iff strRed s).2 hi)
    exact ⟨⟨fun he => absurd he (by decide), fun hi => absurd hi hni⟩,
      ⟨fun _ => hni, fun _ => rfl⟩⟩
